import Mathlib

/-!
Verification of the intent-resolution and action-dispatch pipeline of
`github_agent_streamlit.py` (class `GitHubAgent` plus its JSON-extraction
helper), as a shallow embedding in Lean 4.

Modelling conventions:
* Python dicts mapping string keys to string values become association lists
  (`Params`), with first-match lookup and in-place update semantics.
* A parsed intent dict is a structure with `Option` fields: a field is `none`
  exactly when the corresponding key is absent from the dict.
* Confidences are modelled as rationals (witness values written with
  `mkRat`): the program only ever compares exact decimal literals such as
  0.3 and 0.7, all representable exactly, so `Float` rounding plays no role.
* `json.loads` is an external library call; it is passed in as an oracle
  `loads : String → Option Intent`, where `none` covers both a raised
  `JSONDecodeError` and a parse result that is not a string-keyed dict (both
  end in the same `except` handler of `parse_intent`).
* The remote GitHub client and the Ollama model are the spec's external
  collaborators; they enter as total oracles (`client`, `gen`).  `execute`
  additionally returns the list of remote calls it performed, so that
  "never calls the remote client" is a statement about the embedding.
* The only exception that can escape the embedded code is the `KeyError`
  raised by `intent["params"]` / `intent["action"]` subscripts; it is
  modelled with `Except PyError`.
-/

/-- Characters written via their code points to keep source literals exact:
the apostrophe, the backtick, and the two braces. -/
def apos : String := (Char.ofNat 39).toString

def tick : Char := Char.ofNat 96

/-- The code-fence marker three-backticks, as a character list. -/
def fence : List Char := [tick, tick, tick]

/-- Substring occurrence test on character lists; mirrors Python `p in s`. -/
def occursIn (p : List Char) : List Char → Bool
  | [] => p.isEmpty
  | c :: rest => p.isPrefixOf (c :: rest) || occursIn p rest

/-- Python `s.strip()`: leading and trailing whitespace removed.  (A
structurally recursive equivalent of `String.trim`, so that concrete
instances reduce inside the kernel.) -/
def strTrim (s : String) : String :=
  String.mk (((s.data.dropWhile Char.isWhitespace).reverse.dropWhile
      Char.isWhitespace).reverse)

/-- Python `s.split(sep)` for a single-character separator. -/
def splitChars (sep : Char) : List Char → List (List Char)
  | [] => [[]]
  | c :: rest =>
    if c = sep then [] :: splitChars sep rest
    else
      match splitChars sep rest with
      | g :: gs => (c :: g) :: gs
      | [] => [[c]]

/-- Everything after the first occurrence of the fence marker; used to model
`json_str.split("\x60\x60\x60")[1]` (first component of the slice). -/
def afterFirstFence : List Char → List Char
  | [] => []
  | c :: rest =>
    if fence.isPrefixOf (c :: rest) then rest.drop 2
    else afterFirstFence rest

/-- Everything before the next occurrence of the fence marker (or the whole
list when no further marker occurs). -/
def beforeFence : List Char → List Char
  | [] => []
  | c :: rest =>
    if fence.isPrefixOf (c :: rest) then []
    else c :: beforeFence rest

/-- `json_str.split("\x60\x60\x60")[1]`: the segment between the first and
second fence markers (the rest of the string when only one marker occurs). -/
def fenceSegment (cs : List Char) : List Char :=
  beforeFence (afterFirstFence cs)

/-- Python `s.replace("json", "")`: removes every (leftmost, non-overlapping)
occurrence of `json`. -/
def removeJson : List Char → List Char
  | 'j' :: 's' :: 'o' :: 'n' :: rest => removeJson rest
  | c :: rest => c :: removeJson rest
  | [] => []

/-- One character of the regex class `[a-zA-Z0-9_.-]`. -/
def isTokenChar (c : Char) : Bool :=
  c.isAlpha || c.isDigit || c = '_' || c = '.' || c = '-'

/-- `re.search(r'([a-zA-Z0-9_.-]+)/([a-zA-Z0-9_.-]+)', s)`: the leftmost
match, with both groups greedy.  Since `/` is not a token character, the
first group at a given start position is forced to be the maximal token run
there, so no backtracking case arises. -/
def searchRepo : List Char → Option (String × String)
  | [] => none
  | c :: rest =>
    if isTokenChar c then
      match (c :: rest).dropWhile isTokenChar with
      | [] => searchRepo rest
      | d :: r2 =>
        if d = '/' then
          if (r2.takeWhile isTokenChar).isEmpty then searchRepo rest
          else some (String.mk ((c :: rest).takeWhile isTokenChar),
                     String.mk (r2.takeWhile isTokenChar))
        else searchRepo rest
    else searchRepo rest

/-- The brace-depth scan of `parse_intent` (lines 529-540 of the source):
`depth` starts at 0, a `\x7b` seen at depth 0 (re)starts the candidate span,
and the span is returned at the `\x7d` that brings the depth back to 0 with a
span started.  `cur` plays the role of `json_str[start:i+1]`: the characters
accumulated since `start` was last set (`none` when `start` is `-1`). -/
def scan_braces : List Char → Int → Option (List Char) → Option (List Char)
  | [], _, _ => none
  | c :: rest, depth, cur =>
    if c = '{' then
      if depth = 0 then scan_braces rest (depth + 1) (some [c])
      else scan_braces rest (depth + 1) (cur.map (fun a => a ++ [c]))
    else if c = '}' then
      if depth - 1 = 0 then
        match cur with
        | some acc => some (acc ++ [c])
        | none => scan_braces rest (depth - 1) none
      else scan_braces rest (depth - 1) (cur.map (fun a => a ++ [c]))
    else scan_braces rest depth (cur.map (fun a => a ++ [c]))

/-- The candidate string after the brace scan: the extracted span when one was
found, otherwise the input unchanged (the source then lets `json.loads` fail
on it). -/
def extract_span (s : String) : String :=
  match scan_braces s.data 0 none with
  | some sp => String.mk sp
  | none => s

def hasFence (s : String) : Bool := occursIn fence s.data

/-- The whole JSON-candidate preprocessing of `parse_intent`: strip the
response, narrow to the text between the first two fence markers (with every
occurrence of `json` removed, then stripped) when a marker is present, then
run the brace scan. -/
def json_candidate (response : String) : String :=
  let s0 := strTrim response
  let s1 :=
    if hasFence s0 then strTrim (String.mk (removeJson (fenceSegment s0.data)))
    else s0
  extract_span s1

/-- Parameter dicts: association lists with Python-dict lookup semantics. -/
abbrev Params := List (String × String)

def pget (ps : Params) (k : String) : Option String :=
  (List.find? (fun kv => kv.1 == k) ps).map (fun kv => kv.2)

def pgetD (ps : Params) (k d : String) : String := (pget ps k).getD d

/-- Python `d[k] = v`: replace in place when the key exists, append otherwise. -/
def pset (ps : Params) (k v : String) : Params :=
  if List.any ps (fun kv => kv.1 == k) then
    List.map (fun kv => if kv.1 == k then (k, v) else kv) ps
  else ps ++ [(k, v)]

/-- Python truthiness of an optional string: present and non-empty. -/
def truthyO : Option String → Bool
  | some s => !(s == "")
  | none => false

/-- A parsed intent dict.  A field is `none` exactly when the key is absent. -/
structure Intent where
  action : Option String
  params : Option Params
  confidence : Option ℚ
deriving DecidableEq

inductive PyError where
  | keyError (key : String)
deriving DecidableEq

/-- The remote operations of the GitHub client (spec section 6 collaborator),
recorded with the argument values the dispatcher passes. -/
inductive RemoteCall where
  | list_repos (username org : Option String)
  | get_repo (owner repo : String)
  | list_issues (owner repo state : String)
  | create_issue (owner repo title body : String)
  | list_prs (owner repo state : String)
  | list_branches (owner repo : String)
  | list_commits (owner repo : String)
  | get_user
  | get_user_named (username : String)
  | search_repos (query : String)
deriving DecidableEq

/-- A dispatch result: either an opaque successful payload (carried as its
`json.dumps` serialization) or a dict with an `error` key. -/
inductive GhResult where
  | ok (payload : String)
  | errRec (msg : String)
deriving DecidableEq

/-- The result envelope returned by `process`; absent dict keys are `none`. -/
structure Envelope where
  success : Bool
  message : Option String
  intent : Option Intent
  result : Option GhResult
  formatted : Option String
deriving DecidableEq

def issue_words : List String := ["issue", "issues", "problemas"]

def branch_words : List String := ["branch", "branches", "ramos"]

def commit_words : List String := ["commit", "commits"]

def pr_words : List String := ["pr", "prs", "pull request", "pull requests"]

def repo_words : List String := ["repo", "repositório", "repositorio"]

def search_words : List String := ["busca", "buscar", "pesquisa", "search"]

def myrepos_words : List String := ["meus repo", "meus reposit", "list repo"]

/-- Python `s.lower()` on ASCII text (a structurally recursive equivalent of
`String.toLower`, so that concrete instances reduce inside the kernel). -/
def strLower (s : String) : String := String.mk (s.data.map Char.toLower)

/-- `any(w in user_lower for w in ws)`. -/
def wordsIn (lower : String) (ws : List String) : Bool :=
  ws.any (fun w => occursIn w.data lower.data)

/-- `GitHubAgent._fallback_parse` (source lines 569-602): deterministic
keyword classifier used when the model output cannot be parsed. -/
def fallback_parse (user_input : String) : Intent :=
  let user_lower := strLower user_input
  let m := searchRepo user_input.data
  let owner := (m.map Prod.fst).getD ""
  let repo := (m.map Prod.snd).getD ""
  let action :=
    if wordsIn user_lower issue_words then "list_issues"
    else if wordsIn user_lower branch_words then "list_branches"
    else if wordsIn user_lower commit_words then "list_commits"
    else if wordsIn user_lower pr_words then "list_prs"
    else if wordsIn user_lower repo_words && !(owner == "") then "get_repo"
    else if wordsIn user_lower search_words then "search_repos"
    else if wordsIn user_lower myrepos_words then "list_repos"
    else "unknown"
  { action := some action,
    params := some [("owner", owner), ("repo", repo)],
    confidence := some (if !(owner == "") && !(repo == "") then mkRat 7 10 else mkRat 3 10) }

/-- `GitHubAgent._enrich_intent` (source lines 551-567).  The `params` stay
untouched when owner and repo are present, non-empty, and owner carries no
slash; otherwise the first `token/token` match of the raw input overwrites
them — through the subscript `intent["params"]`, which raises `KeyError`
when the parsed dict has no `params` key. -/
def enrich_intent (user_input : String) (intent : Intent) : Except PyError Intent :=
  let p := intent.params.getD []
  if truthyO (pget p "owner") && truthyO (pget p "repo")
      && !((pgetD p "owner" "").data.contains '/') then
    Except.ok intent
  else
    match searchRepo user_input.data with
    | none => Except.ok intent
    | some (o, r) =>
      match intent.params with
      | none => Except.error (PyError.keyError "params")
      | some ps => Except.ok { intent with params := some (pset (pset ps "owner" o) "repo" r) }

/-- `GitHubAgent.parse_intent` (source lines 515-549), with the model response
already obtained (`OllamaClient.chat` never raises: it converts transport
failures into an error text, which is just another response string here).
The whole fence/scan/loads/enrich block sits in one `try`, whose handler
returns the fallback classification; hence the total return type. -/
def parse_intent (loads : String → Option Intent) (user_input response : String) : Intent :=
  match loads (json_candidate response) with
  | none => fallback_parse user_input
  | some intent =>
    match enrich_intent user_input intent with
    | Except.error _ => fallback_parse user_input
    | Except.ok i => i

/-- The key loop of `get_owner_repo` (source lines 613-619): the first value
among the keys `owner`, `repo`, `repository` that is non-empty and contains a
slash is split on every `/`, and its first two parts are returned stripped. -/
def slash_scan (p : Params) : List String → Option (String × String)
  | [] => none
  | k :: ks =>
    let val := pgetD p k ""
    if !(val == "") && val.data.contains '/' then
      let parts := splitChars '/' val.data
      if 2 ≤ parts.length then
        some (strTrim (String.mk (parts.getD 0 [])), strTrim (String.mk (parts.getD 1 [])))
      else slash_scan p ks
    else slash_scan p ks

/-- `get_owner_repo` (source lines 609-621), the dispatch-time owner/repo
resolution helper closed over `p`. -/
def get_owner_repo (p : Params) : String × String :=
  let owner := pgetD p "owner" ""
  let repo := pgetD p "repo" ""
  match slash_scan p ["owner", "repo", "repository"] with
  | some pr => pr
  | none =>
    (if !(owner == "") then strTrim owner else "",
     if !(repo == "") then strTrim repo else "")

def msg_owner_repo_ex : String := "Informe owner/repo. Ex: microsoft/vscode"

def msg_owner_repo : String := "Informe owner/repo"

def msg_query : String := "Informe o termo de busca"

def msg_unknown_action : String := "Ação não reconhecida"

/-- The message of the `KeyError` handler of `execute` for a missing `title`:
`str(KeyError('title'))` is the quoted key name. -/
def msg_missing_title : String :=
  "Parâmetro faltando: " ++ apos ++ "title" ++ apos
    ++ ". Tente ser mais específico, ex: " ++ apos ++ "issues do microsoft/vscode" ++ apos

/-- `GitHubAgent.execute` (source lines 604-644).  The remote client is the
oracle `client`; the second component records the remote calls performed (the
source performs at most one per dispatch).  The action table membership test
plus lambda dispatch of the source becomes a match on the action name; the
`KeyError` raised by `p["title"]` is the only exception the dispatch
mechanism itself can raise, and the source converts it to an error dict. -/
def execute (client : RemoteCall → GhResult) (intent : Intent) :
    GhResult × List RemoteCall :=
  let action := intent.action.getD "unknown"
  let p := intent.params.getD []
  let or2 := get_owner_repo p
  let owner := or2.1
  let repo := or2.2
  if action = "list_repos" then
    let c := RemoteCall.list_repos (pget p "username") (pget p "org")
    (client c, [c])
  else if action = "get_repo" then
    if !(owner == "") && !(repo == "") then
      let c := RemoteCall.get_repo owner repo
      (client c, [c])
    else (GhResult.errRec msg_owner_repo_ex, [])
  else if action = "list_issues" then
    if !(owner == "") && !(repo == "") then
      let c := RemoteCall.list_issues owner repo (pgetD p "state" "open")
      (client c, [c])
    else (GhResult.errRec msg_owner_repo_ex, [])
  else if action = "create_issue" then
    if !(owner == "") && !(repo == "") then
      match pget p "title" with
      | some title =>
        let c := RemoteCall.create_issue owner repo title (pgetD p "body" "")
        (client c, [c])
      | none => (GhResult.errRec msg_missing_title, [])
    else (GhResult.errRec msg_owner_repo, [])
  else if action = "list_prs" then
    if !(owner == "") && !(repo == "") then
      let c := RemoteCall.list_prs owner repo (pgetD p "state" "open")
      (client c, [c])
    else (GhResult.errRec msg_owner_repo, [])
  else if action = "list_branches" then
    if !(owner == "") && !(repo == "") then
      let c := RemoteCall.list_branches owner repo
      (client c, [c])
    else (GhResult.errRec msg_owner_repo, [])
  else if action = "list_commits" then
    if !(owner == "") && !(repo == "") then
      let c := RemoteCall.list_commits owner repo
      (client c, [c])
    else (GhResult.errRec msg_owner_repo, [])
  else if action = "get_user" then
    if truthyO (pget p "username") then
      let c := RemoteCall.get_user_named (pgetD p "username" "")
      (client c, [c])
    else (client RemoteCall.get_user, [RemoteCall.get_user])
  else if action = "search_repos" then
    if truthyO (pget p "query") then
      let c := RemoteCall.search_repos (pgetD p "query" "")
      (client c, [c])
    else (GhResult.errRec msg_query, [])
  else (GhResult.errRec msg_unknown_action, [])

/-- The formatting prompt built by `format_response` for a non-error payload. -/
def format_prompt (action data_str : String) : String :=
  "Formate estes dados do GitHub de forma clara em português brasileiro, use markdown com emojis:\n\nAção: "
    ++ action ++ "\nDados: " ++ data_str

/-- `GitHubAgent.format_response` (source lines 646-653).  `gen` is the
Ollama completion oracle (`OllamaClient.generate` never raises: it converts
failures into an error text, returned verbatim).  The second component counts
the model calls issued. -/
def format_response (gen : String → String) (action : String) (data : GhResult) :
    String × Nat :=
  match data with
  | GhResult.errRec msg => ("❌ **Erro:** " ++ msg, 0)
  | GhResult.ok payload =>
    let data_str := payload.take 3000
    (gen (format_prompt action data_str), 1)

/-- The confidence gate of `process`:
`intent.get("action") == "unknown" or intent.get("confidence", 0) < 0.3`. -/
def gate_rejects (intent : Intent) : Bool :=
  (intent.action == some "unknown") || decide (intent.confidence.getD 0 < mkRat 3 10)

def guidance_message : String :=
  "Não entendi o pedido. Tente: " ++ apos ++ "Liste meus repositórios" ++ apos
    ++ " ou " ++ apos ++ "Mostre issues do microsoft/vscode" ++ apos

/-- `GitHubAgent.process` (source lines 655-672).  On rejection the envelope
carries only the guidance message and no remote call was made.  Past the
gate, `execute` runs first; the subscript `intent["action"]` passed to
`format_response` then raises `KeyError` when the intent has no `action` key
(possible only for a model-parsed intent), and `process` has no handler for
it. -/
def process (loads : String → Option Intent) (client : RemoteCall → GhResult)
    (gen : String → String) (user_input response : String) :
    Except PyError (Envelope × List RemoteCall) :=
  let intent := parse_intent loads user_input response
  if gate_rejects intent then
    Except.ok
      ({ success := false, message := some guidance_message,
         intent := none, result := none, formatted := none }, [])
  else
    let rc := execute client intent
    match intent.action with
    | none => Except.error (PyError.keyError "action")
    | some a =>
      Except.ok
        ({ success := true, message := none, intent := some intent,
           result := some rc.1,
           formatted := some (format_response gen a rc.1).1 }, rc.2)

/-- Modelled from the claim text of C6: the fallback classifier described as
ordered keyword checks, with the repository branch guarded by "an owner/repo
pair was extracted" and the confidence 0.7 exactly when both owner and repo
were extracted. -/
def fallback_spec (user_input : String) : Intent :=
  let lower := strLower user_input
  let pair := searchRepo user_input.data
  let owner := (pair.map Prod.fst).getD ""
  let repo := (pair.map Prod.snd).getD ""
  let action :=
    if wordsIn lower issue_words then "list_issues"
    else if wordsIn lower branch_words then "list_branches"
    else if wordsIn lower commit_words then "list_commits"
    else if wordsIn lower pr_words then "list_prs"
    else if wordsIn lower repo_words && pair.isSome then "get_repo"
    else if wordsIn lower search_words then "search_repos"
    else if wordsIn lower myrepos_words then "list_repos"
    else "unknown"
  { action := some action,
    params := some [("owner", owner), ("repo", repo)],
    confidence := some (if pair.isSome then mkRat 7 10 else mkRat 3 10) }

/-- Modelled from the claim text of C3: the matching-close search that defines
"the first syntactically balanced span".  `depth` is the number of still-open
braces (at least 1 once the span has started), `acc` the span so far. -/
def spanFrom : List Char → Nat → List Char → Option (List Char)
  | [], _, _ => none
  | c :: rest, depth, acc =>
    if c = '{' then spanFrom rest (depth + 1) (acc ++ [c])
    else if c = '}' then
      if depth = 1 then some (acc ++ [c])
      else spanFrom rest (depth - 1) (acc ++ [c])
    else spanFrom rest depth (acc ++ [c])

/-- Modelled from the claim text of C3: the first syntactically balanced
brace-delimited span of a string — everything up to the first `\x7b` is
skipped, and the span runs to the brace that closes it. -/
def first_balanced_span (s : String) : Option String :=
  match s.data.dropWhile (fun c => c != '{') with
  | [] => none
  | _ :: t => (spanFrom t 1 ['{']).map String.mk

/-- Modelled from the amended claim text of C8: dispatch-time resolution
scans exactly the keys `owner`, `repo`, `repository` in that order; the
first non-empty value containing a slash contributes its first two
slash-separated segments, stripped; otherwise the raw owner/repo values are
used, stripped. -/
def resolve_spec (p : Params) : String × String :=
  match ["owner", "repo", "repository"].findSome? (fun k =>
      let v := pgetD p k ""
      if !(v == "") && v.data.contains '/' then some v else none) with
  | some v =>
    (strTrim (String.mk ((splitChars '/' v.data).getD 0 [])),
     strTrim (String.mk ((splitChars '/' v.data).getD 1 [])))
  | none => (strTrim (pgetD p "owner" ""), strTrim (pgetD p "repo" ""))

theorem String.mk_ne_empty (c : Char) (l : List Char) : String.mk (c :: l) ≠ "" := by
  intro h
  have := congrArg String.data h
  simp at this

/-- Both regex groups of a `token/token` match are non-empty. -/
theorem searchRepo_ne {cs : List Char} {o r : String}
    (h : searchRepo cs = some (o, r)) : o ≠ "" ∧ r ≠ "" := by
  induction cs with
  | nil => simp [searchRepo] at h
  | cons c rest ih =>
    rw [searchRepo] at h
    by_cases hc : isTokenChar c
    · rw [if_pos hc] at h
      rcases hd : (c :: rest).dropWhile isTokenChar with _ | ⟨d, r2⟩ <;> rw [hd] at h
      · exact ih h
      · by_cases hds : d = '/'
        · by_cases he : (r2.takeWhile isTokenChar).isEmpty
          · refine ih ?_
            rw [← h]
            simp [hds, he]
          · have h2 : (String.mk ((c :: rest).takeWhile isTokenChar),
                String.mk (r2.takeWhile isTokenChar)) = (o, r) := by
              have hih : (if d = '/' then
                  if (r2.takeWhile isTokenChar).isEmpty = true then searchRepo rest
                  else some (String.mk ((c :: rest).takeWhile isTokenChar),
                      String.mk (r2.takeWhile isTokenChar))
                  else searchRepo rest) = some (o, r) := h
              rw [if_pos hds, if_neg he] at hih
              exact Option.some.inj hih
            have ho := congrArg Prod.fst h2
            have hr := congrArg Prod.snd h2
            simp only at ho hr
            constructor
            · rw [← ho]
              rw [List.takeWhile_cons, if_pos hc]
              exact String.mk_ne_empty _ _
            · rw [← hr]
              rcases ht : r2.takeWhile isTokenChar with _ | ⟨x, xs⟩
              · rw [ht] at he; simp at he
              · exact String.mk_ne_empty _ _
        · refine ih ?_
          rw [← h]
          simp [hds]
    · rw [if_neg hc] at h
      exact ih h

/-- A remote-client oracle for concrete evaluations: every call succeeds. -/
def client0 : RemoteCall → GhResult := fun _ => GhResult.ok "dados"

/-- A model-completion oracle for concrete evaluations. -/
def gen0 : String → String := fun _ => "texto formatado"

/-- A loads oracle on which every parse fails (models `json.loads` raising on
a response with no JSON in it). -/
def loads_fail : String → Option Intent := fun _ => none

/-- A model response whose JSON carries `params` and `confidence` but no
`action` key. -/
def resp_na : String := "\x7b\x22confidence\x22: 1.0, \x22params\x22: \x7b\x7d\x7d"

/-- `json.loads` on `resp_na` (and only on it): a dict with empty params,
confidence 1.0, and no action key. -/
def loads_na : String → Option Intent := fun s =>
  if s = resp_na then some { action := none, params := some [], confidence := some 1 }
  else none

/-- A model response whose JSON carries `action` and `confidence` but no
`params` key. -/
def resp_np : String := "\x7b\x22action\x22: \x22list_issues\x22, \x22confidence\x22: 0.9\x7d"

/-- `json.loads` on `resp_np` (and only on it): a dict with an action,
confidence 0.9, and no params key. -/
def loads_np : String → Option Intent := fun s =>
  if s = resp_np then
    some { action := some "list_issues", params := none, confidence := some (mkRat 9 10) }
  else none

/-- A model response that wraps commentary in a code fence and puts its JSON
after the fenced block. -/
def resp_fence : String := "``` note ``` \x7b\x22action\x22: 1\x7d"

theorem isPrefixOf_self (l : List Char) : l.isPrefixOf l = true := by
  induction l with
  | nil => rfl
  | cons c rest ih => simp [List.isPrefixOf, ih]

theorem occursIn_append_self (pre p : List Char) : occursIn p (pre ++ p) = true := by
  induction pre with
  | nil =>
    cases p with
    | nil => rfl
    | cons c cs => simp [occursIn, isPrefixOf_self]
  | cons c cs ih => simp [occursIn, ih]

/-- C2: whenever JSON extraction or parsing of the model response fails — the
`loads` oracle rejects the extracted candidate, which covers malformed JSON,
the absence of a balanced brace span (the candidate is then the whole
response), and a model transport or timeout error surfaced as plain error
text — `parse_intent` returns exactly the fallback classification of the same
raw text.  No exception escapes: `parse_intent` is a total function. -/
theorem C2_parse_failure_falls_back (loads : String → Option Intent)
    (user_input response : String)
    (h : loads (json_candidate response) = none) :
    parse_intent loads user_input response = fallback_parse user_input := by
  simp [parse_intent, h]

theorem C2_witness :
    loads_fail (json_candidate "Erro Ollama: timeout") = none ∧
    parse_intent loads_fail "mostre issues do microsoft/vscode" "Erro Ollama: timeout"
      = fallback_parse "mostre issues do microsoft/vscode" :=
  ⟨rfl, C2_parse_failure_falls_back loads_fail _ _ rfl⟩

/-- C10: a model response that parses to a valid JSON object without a
`params` key, combined with raw text containing a `token/token` substring,
makes `parse_intent` discard the parsed action and confidence entirely and
return the fallback classification: the enrichment writes through
`intent["params"]`, and the resulting KeyError lands in the surrounding
parse-failure handler. -/
theorem C10_missing_params_falls_back (loads : String → Option Intent)
    (u r : String) (i : Intent)
    (hl : loads (json_candidate r) = some i)
    (hp : i.params = none)
    (hm : (searchRepo u.data).isSome = true) :
    parse_intent loads u r = fallback_parse u := by
  obtain ⟨⟨o, rep⟩, hsr⟩ := Option.isSome_iff_exists.mp hm
  simp [parse_intent, hl, enrich_intent, hp, hsr, pget, truthyO]

theorem C10_witness :
    parse_intent loads_np "issues do microsoft/vscode" resp_np
      = fallback_parse "issues do microsoft/vscode" :=
  C10_missing_params_falls_back loads_np _ _
    { action := some "list_issues", params := none, confidence := some (mkRat 9 10) }
    (by decide) rfl (by decide)

/-- C9: for an Error Record the formatter returns the short error string
containing the record's message, with no model call; for a non-error result
it serializes the payload capped at 3000 characters and issues exactly one
completion call, returning the model's text verbatim (so a model failure
surfaces as the literal returned text); the formatter is a total function
and never raises. -/
theorem C9_formatter (gen : String → String) (action msg payload : String) :
    (format_response gen action (GhResult.errRec msg) = ("❌ **Erro:** " ++ msg, 0)
      ∧ occursIn msg.data (("❌ **Erro:** " ++ msg).data) = true)
    ∧ format_response gen action (GhResult.ok payload)
        = (gen (format_prompt action (payload.take 3000)), 1) := by
  refine ⟨⟨rfl, ?_⟩, rfl⟩
  have h : ("❌ **Erro:** " ++ msg).data = "❌ **Erro:** ".data ++ msg.data := rfl
  rw [h]
  exact occursIn_append_self _ _

/-- C4: for an Intent whose action is one of the six owner/repo-requiring
actions with the resolved owner or repo empty, or `search_repos` with an
empty (or absent) query, `execute` returns an Error Record (a dict carrying
an error message) and performs no remote call. -/
theorem C4_missing_param_no_call (client : RemoteCall → GhResult) (i : Intent) (a : String)
    (ha : i.action = some a)
    (hcase :
      (a ∈ ["get_repo", "list_issues", "list_prs", "list_branches", "list_commits",
            "create_issue"]
        ∧ ((get_owner_repo (i.params.getD [])).1 = ""
            ∨ (get_owner_repo (i.params.getD [])).2 = ""))
      ∨ (a = "search_repos" ∧ truthyO (pget (i.params.getD []) "query") = false)) :
    (∃ msg, (execute client i).1 = GhResult.errRec msg) ∧ (execute client i).2 = [] := by
  rcases hcase with ⟨hmem, hor⟩ | ⟨rfl, hq⟩
  · simp only [List.mem_cons, List.not_mem_nil, or_false] at hmem
    have hguard : (!((get_owner_repo (i.params.getD [])).1 == "")
        && !((get_owner_repo (i.params.getD [])).2 == "")) = false := by
      rcases hor with h | h <;> simp [h]
    rcases hmem with rfl | rfl | rfl | rfl | rfl | rfl <;>
      simp [execute, ha, hguard]
  · simp [execute, ha, hq]

theorem C4_witness :
    (∃ msg, (execute client0
        (⟨some "get_repo", some [], some (mkRat 9 10)⟩ : Intent)).1
          = GhResult.errRec msg)
      ∧ (execute client0
          (⟨some "get_repo", some [], some (mkRat 9 10)⟩ : Intent)).2 = [] :=
  C4_missing_param_no_call client0 _ "get_repo" rfl
    (Or.inl ⟨by decide, Or.inl (by decide)⟩)

/-- C6: the fallback classifier coincides with the claim's description —
ordered case-insensitive keyword checks in the stated precedence (issues,
branches, commits, pull requests, repository-with-extracted-pair, search,
list-my-repos, else unknown), with confidence exactly 0.7 when both owner
and repo were extracted from the text and exactly 0.3 otherwise. -/
theorem C6_fallback_matches_spec (user_input : String) :
    fallback_parse user_input = fallback_spec user_input := by
  unfold fallback_parse fallback_spec
  rcases h : searchRepo user_input.data with _ | ⟨o, r⟩
  · simp [h]
  · obtain ⟨ho, hr⟩ := searchRepo_ne h
    simp [h, ho, hr]

/-- C5 fails on the code: the fallback classifier on raw text `abc/def`
(which contains no action keyword but does contain an owner/repo match)
produces an intent with action `unknown` and confidence 0.7, which is not
below 0.3. -/
theorem C5_counterexample :
    (fallback_parse "abc/def").action = some "unknown"
      ∧ (fallback_parse "abc/def").confidence = some (mkRat 7 10)
      ∧ ¬ (mkRat 7 10 < mkRat 3 10) := by decide

/-- C5 amended: an intent produced by the fallback classifier with action
`unknown` carries confidence 0.3 — below the gate threshold — except when
an owner/repo pair was extracted from the text, in which case it carries
confidence 0.7; the confidence gate rejects it either way, because the
unknown action is checked independently of the confidence. -/
theorem C5_amended_unknown_confidence (s : String)
    (h : (fallback_parse s).action = some "unknown") :
    (fallback_parse s).confidence
        = some (if (searchRepo s.data).isSome then mkRat 7 10 else mkRat 3 10)
      ∧ gate_rejects (fallback_parse s) = true := by
  constructor
  · rcases hm : searchRepo s.data with _ | ⟨o, r⟩
    · simp [fallback_parse, hm]
    · obtain ⟨ho, hr⟩ := searchRepo_ne hm
      simp [fallback_parse, hm, ho, hr]
  · simp [gate_rejects, h]

theorem C5_amended_witness :
    (fallback_parse "abc/def").confidence
        = some (if (searchRepo "abc/def".data).isSome then mkRat 7 10 else mkRat 3 10)
      ∧ gate_rejects (fallback_parse "abc/def") = true :=
  C5_amended_unknown_confidence "abc/def" (by decide)

theorem strTrim_empty : strTrim "" = "" := rfl

theorem splitChars_nonempty (sep : Char) (cs : List Char) : splitChars sep cs ≠ [] := by
  induction cs with
  | nil => simp [splitChars]
  | cons c rest ih =>
    rw [splitChars]
    by_cases h : c = sep
    · simp [h]
    · rw [if_neg h]
      rcases hs : splitChars sep rest with _ | ⟨g, gs⟩
      · exact absurd hs ih
      · simp

theorem splitChars_length_ge_two (sep : Char) (cs : List Char)
    (h : cs.contains sep = true) : 2 ≤ (splitChars sep cs).length := by
  induction cs with
  | nil => simp [List.contains] at h
  | cons c rest ih =>
    rw [splitChars]
    by_cases hc : c = sep
    · rw [if_pos hc]
      rcases hs : splitChars sep rest with _ | ⟨g, gs⟩
      · exact absurd hs (splitChars_nonempty sep rest)
      · simp
    · rw [if_neg hc]
      have hr : rest.contains sep = true := by
        simp only [List.contains_cons, Bool.or_eq_true, beq_iff_eq] at h
        rcases h with h | h
        · exact absurd h.symm hc
        · exact h
      have h2 := ih hr
      rcases hs : splitChars sep rest with _ | ⟨g, gs⟩
      · exact absurd hs (splitChars_nonempty sep rest)
      · rw [hs] at h2
        simpa using h2

/-- C7 fails on the code: a slash-containing value is not "split on its first
slash" — `get_owner_repo` splits on every slash and keeps the first two
parts, so for an owner value `a/b/c` the repo becomes `b`, not `b/c`; and
the enrichment pass never splits a value at all: with owner `a/b` (and no
owner/repo match in the raw text) the params come back unchanged instead of
split. -/
theorem C7_counterexample :
    get_owner_repo [("owner", "a/b/c")] = ("a", "b")
      ∧ (("a" : String), ("b" : String)) ≠ (("a" : String), ("b/c" : String))
      ∧ enrich_intent "sem barra aqui"
          (⟨some "get_repo", some [("owner", "a/b"), ("repo", "x")], some 1⟩ : Intent)
        = Except.ok
          (⟨some "get_repo", some [("owner", "a/b"), ("repo", "x")], some 1⟩ : Intent) :=
  ⟨rfl, by decide, rfl⟩

/-- C7 amended: the enrichment pass never splits parameter values.  When
owner and repo are present, non-empty, and owner contains no slash, the
intent passes through unchanged; otherwise the first `token/token` match of
the raw text (when one exists) overwrites owner and repo, and the intent is
again unchanged when there is none.  Splitting of slash-containing values
happens only at dispatch time in `get_owner_repo`, which keeps the first two
slash-separated segments of the value. -/
theorem C7_amended_normalizer (u : String) (i : Intent) (ps : Params)
    (hp : i.params = some ps) :
    ((truthyO (pget ps "owner") && truthyO (pget ps "repo")
        && !((pgetD ps "owner" "").data.contains '/')) = true
      → enrich_intent u i = Except.ok i)
    ∧ ((truthyO (pget ps "owner") && truthyO (pget ps "repo")
        && !((pgetD ps "owner" "").data.contains '/')) = false
      → ∀ o r, searchRepo u.data = some (o, r)
      → enrich_intent u i
          = Except.ok { i with params := some (pset (pset ps "owner" o) "repo" r) })
    ∧ ((truthyO (pget ps "owner") && truthyO (pget ps "repo")
        && !((pgetD ps "owner" "").data.contains '/')) = false
      → searchRepo u.data = none → enrich_intent u i = Except.ok i)
    ∧ (∀ v : String, (!(v == "") && v.data.contains '/') = true
      → get_owner_repo [("owner", v)]
          = (strTrim (String.mk ((splitChars '/' v.data).getD 0 [])),
             strTrim (String.mk ((splitChars '/' v.data).getD 1 [])))) := by
  refine ⟨?_, ?_, ?_, ?_⟩
  · intro hg
    simp only [enrich_intent, hp, Option.getD]
    rw [hg]
    simp
  · intro hg o r hm
    simp only [enrich_intent, hp, Option.getD]
    rw [hg, hm]
    simp
  · intro hg hm
    simp only [enrich_intent, hp, Option.getD]
    rw [hg, hm]
    simp
  · intro v hv
    have hv2 : ¬ v = "" ∧ '/' ∈ v.data := by simpa using hv
    have hlen := splitChars_length_ge_two '/' v.data (by simpa using hv2.2)
    simp [get_owner_repo, slash_scan, pgetD, pget, hv2.1, hv2.2, hlen]

theorem C7_amended_witness :
    enrich_intent "veja microsoft/vscode"
        (⟨some "get_repo", some [("owner", "a/b")], some 1⟩ : Intent)
      = Except.ok
        (⟨some "get_repo",
          some (pset (pset [("owner", "a/b")] "owner" "microsoft") "repo" "vscode"),
          some 1⟩ : Intent) :=
  (C7_amended_normalizer "veja microsoft/vscode"
      (⟨some "get_repo", some [("owner", "a/b")], some 1⟩ : Intent)
      [("owner", "a/b")] rfl).2.1 (by decide) "microsoft" "vscode" (by decide)

/-- C8 fails on the code: dispatch-time resolution scans only the keys
`owner`, `repo` and `repository` — a slash-containing value under any other
key (here `query`) is ignored, and the resolution yields empty owner and
repo rather than the claimed first two slash-separated segments. -/
theorem C8_counterexample :
    get_owner_repo [("query", "x/y")] = ("", "")
      ∧ (("" : String), ("" : String)) ≠ (("x" : String), ("y" : String)) :=
  ⟨rfl, by decide⟩

/-- The key loop of `get_owner_repo` expressed through `List.findSome?`:
the first key whose value is non-empty and slash-containing contributes the
first two segments of that value. -/
theorem slash_scan_eq_findSome (p : Params) (ks : List String) :
    slash_scan p ks = (ks.findSome? (fun k =>
        let v := pgetD p k ""
        if !(v == "") && v.data.contains '/' then some v else none)).map
      (fun v => (strTrim (String.mk ((splitChars '/' v.data).getD 0 [])),
                 strTrim (String.mk ((splitChars '/' v.data).getD 1 [])))) := by
  induction ks with
  | nil => rfl
  | cons k ks ih =>
    rw [slash_scan, List.findSome?_cons]
    by_cases hg : (!(pgetD p k "" == "") && (pgetD p k "").data.contains '/') = true
    · have hg2 : ¬ pgetD p k "" = "" ∧ '/' ∈ (pgetD p k "").data := by simpa using hg
      have hlen := splitChars_length_ge_two '/' (pgetD p k "").data (by simpa using hg2.2)
      simp [hg2.1, hg2.2, hlen]
    · have hg2 : ¬ (¬ pgetD p k "" = "" ∧ '/' ∈ (pgetD p k "").data) := by
        intro hcontr
        exact hg (by simpa using hcontr)
      simp only [hg2, if_neg]
      rw [ih]
      simp [hg2]

/-- C8 amended: at dispatch time `get_owner_repo` scans exactly the keys
`owner`, `repo`, `repository`, in that order; the first non-empty value
among them containing a slash is split on every slash and its first two
segments, stripped, become (owner, repo); when no such value exists the raw
owner and repo values are used, stripped (empty when absent). -/
theorem C8_amended_resolution (p : Params) :
    get_owner_repo p = resolve_spec p := by
  unfold get_owner_repo resolve_spec
  rw [slash_scan_eq_findSome]
  rcases hf : List.findSome? (fun k =>
      let v := pgetD p k ""
      if !(v == "") && v.data.contains '/' then some v else none)
      ["owner", "repo", "repository"] with _ | v
  · simp only [Option.map_none]
    by_cases ho : pgetD p "owner" "" = "" <;> by_cases hr : pgetD p "repo" "" = "" <;>
      simp [ho, hr, strTrim_empty]
  · simp

/-- C1 fails on the code in one corner: when the parsed intent passes the
gate (its action is not `unknown` and its confidence is at least 0.3) yet
carries no `action` key — as for model response `resp_na`, a valid JSON
object with only `params` and `confidence: 1.0` — `process` raises an
uncaught KeyError at `intent["action"]` instead of returning a
`success=true` envelope. -/
theorem C1_counterexample :
    gate_rejects (parse_intent loads_na "abc" resp_na) = false
      ∧ process loads_na client0 gen0 "abc" resp_na
          = Except.error (PyError.keyError "action") := by
  constructor
  · decide
  · rfl

/-- C1 amended: `process` returns `success=false` — carrying only the fixed
guidance message, with the Action Dispatcher never invoked — exactly when
the classified intent has action `unknown` or confidence below 0.3; whenever
the gate passes and the intent carries an `action` key, `process` returns a
`success=true` envelope holding the intent, the dispatch result (even when
that result is an Error Record) and its formatting; when the gate passes but
the parsed intent lacks the `action` key, `process` raises an uncaught
KeyError. -/
theorem C1_amended_gate (loads : String → Option Intent)
    (client : RemoteCall → GhResult) (gen : String → String) (u r : String) :
    (gate_rejects (parse_intent loads u r) = true
      → process loads client gen u r
          = Except.ok ((⟨false, some guidance_message, none, none, none⟩ : Envelope), []))
    ∧ (gate_rejects (parse_intent loads u r) = false
      → ∀ a, (parse_intent loads u r).action = some a
      → process loads client gen u r
          = Except.ok
            ((⟨true, none, some (parse_intent loads u r),
              some (execute client (parse_intent loads u r)).1,
              some (format_response gen a
                (execute client (parse_intent loads u r)).1).1⟩ : Envelope),
             (execute client (parse_intent loads u r)).2))
    ∧ (gate_rejects (parse_intent loads u r) = false
      → (parse_intent loads u r).action = none
      → process loads client gen u r = Except.error (PyError.keyError "action")) := by
  refine ⟨?_, ?_, ?_⟩
  · intro hg
    simp only [process]
    rw [hg]
    simp
  · intro hg a ha
    simp only [process]
    rw [hg, ha]
    simp
  · intro hg ha
    simp only [process]
    rw [hg, ha]
    simp

theorem C1_amended_witness :
    process loads_fail client0 gen0 "qual o tempo" "sem json"
        = Except.ok ((⟨false, some guidance_message, none, none, none⟩ : Envelope), [])
      ∧ process loads_fail client0 gen0 "issues do microsoft/vscode" "sem json"
        = Except.ok
          ((⟨true, none,
            some (parse_intent loads_fail "issues do microsoft/vscode" "sem json"),
            some (execute client0
              (parse_intent loads_fail "issues do microsoft/vscode" "sem json")).1,
            some (format_response gen0 "list_issues"
              (execute client0
                (parse_intent loads_fail "issues do microsoft/vscode" "sem json")).1).1⟩ :
              Envelope),
           (execute client0
             (parse_intent loads_fail "issues do microsoft/vscode" "sem json")).2) :=
  ⟨(C1_amended_gate loads_fail client0 gen0 "qual o tempo" "sem json").1 (by decide),
   (C1_amended_gate loads_fail client0 gen0 "issues do microsoft/vscode" "sem json").2.1
      (by decide) "list_issues" (by decide)⟩

/-- C3 fails on the code: when the response contains a code-fence marker,
the scan is applied not to the whole response but only to the text between
the first two markers (with `json` occurrences removed) — so for a response
whose balanced JSON span sits after a fenced block, the claimed span is
ignored and the candidate is the fenced commentary instead. -/
theorem C3_counterexample :
    first_balanced_span (strTrim resp_fence) = some "\x7b\x22action\x22: 1\x7d"
      ∧ json_candidate resp_fence = "note"
      ∧ ("note" : String) ≠ "\x7b\x22action\x22: 1\x7d" := by
  refine ⟨rfl, rfl, by decide⟩

theorem dropWhile_head_false {p : Char → Bool} {l : List Char} {c : Char} {t : List Char}
    (h : l.dropWhile p = c :: t) : p c = false := by
  induction l with
  | nil => simp [List.dropWhile] at h
  | cons a as ih =>
    rw [List.dropWhile_cons] at h
    by_cases hp : p a
    · rw [if_pos hp] at h
      exact ih h
    · rw [if_neg hp] at h
      injection h with h1 h2
      subst h1
      simpa using hp

/-- Scanning a prefix with no braces leaves the scan state untouched. -/
theorem scan_braces_append_clean (pre t : List Char)
    (h : ∀ c ∈ pre, c ≠ '{' ∧ c ≠ '}') :
    scan_braces (pre ++ t) 0 none = scan_braces t 0 none := by
  induction pre with
  | nil => rfl
  | cons c cs ih =>
    have hc := h c (List.mem_cons_self _ _)
    rw [List.cons_append, scan_braces, if_neg hc.1, if_neg hc.2]
    simp only [Option.map_none']
    exact ih (fun x hx => h x (List.mem_cons_of_mem _ hx))

/-- Once a span has started (depth at least 1, accumulator active), the
source's brace scan and the specification's matching-close search agree. -/
theorem scan_braces_eq_spanFrom (t : List Char) (n : Nat) (acc : List Char) :
    scan_braces t ((n : Int) + 1) (some acc) = spanFrom t (n + 1) acc := by
  induction t generalizing n acc with
  | nil => rfl
  | cons c rest ih =>
    rw [scan_braces, spanFrom]
    by_cases hob : c = '{'
    · rw [if_pos hob, if_pos hob]
      have h0 : ¬ ((n : Int) + 1 = 0) := by omega
      rw [if_neg h0]
      simp only [Option.map_some']
      have hc : (n : Int) + 1 + 1 = ((n + 1 : Nat) : Int) + 1 := by push_cast; ring
      rw [hc]
      exact ih (n + 1) (acc ++ [c])
    · rw [if_neg hob, if_neg hob]
      by_cases hcb : c = '}'
      · rw [if_pos hcb, if_pos hcb]
        cases n with
        | zero =>
          have h1 : ((0 : Nat) : Int) + 1 - 1 = 0 := by norm_num
          rw [if_pos h1]
          simp
        | succ m =>
          have h1 : ¬ (((m + 1 : Nat) : Int) + 1 - 1 = 0) := by push_cast; omega
          rw [if_neg h1]
          have h2 : ¬ (m + 1 + 1 = 1) := by omega
          rw [if_neg h2]
          simp only [Option.map_some']
          have hc : ((m + 1 : Nat) : Int) + 1 - 1 = ((m : Nat) : Int) + 1 := by
            push_cast; ring
          rw [hc]
          have hn : m + 1 + 1 - 1 = m + 1 := by omega
          rw [hn]
          exact ih m (acc ++ [c])
      · rw [if_neg hcb, if_neg hcb]
        simp only [Option.map_some']
        exact ih n (acc ++ [c])

/-- On a string with no stray closing brace before its first opening brace,
the source's scan computes exactly the first balanced span (and leaves the
string unchanged when there is none). -/
theorem extract_span_eq_first_balanced (s : String)
    (h2 : (s.data.takeWhile (fun c => c != '{')).all (fun c => c != '}') = true) :
    extract_span s = (first_balanced_span s).getD s := by
  unfold extract_span first_balanced_span
  have hpre : ∀ c ∈ s.data.takeWhile (fun c => c != '{'), c ≠ '{' ∧ c ≠ '}' := by
    intro c hc
    constructor
    · have h3 := List.mem_takeWhile_imp hc
      simpa using h3
    · have h3 := (List.all_eq_true.mp h2) c hc
      simpa using h3
  have hsplit : scan_braces s.data 0 none
      = scan_braces (s.data.dropWhile (fun c => c != '{')) 0 none := by
    conv_lhs => rw [← List.takeWhile_append_dropWhile (p := fun c => c != '{') (l := s.data)]
    exact scan_braces_append_clean _ _ hpre
  rw [hsplit]
  rcases hd : s.data.dropWhile (fun c => c != '{') with _ | ⟨c, t⟩
  · simp [scan_braces]
  · have hcb : c = '{' := by
      have h3 := dropWhile_head_false hd
      simpa using h3
    subst hcb
    have hscan : scan_braces ('{' :: t) 0 none = spanFrom t 1 ['{'] := by
      rw [scan_braces, if_pos rfl, if_pos rfl]
      have h4 := scan_braces_eq_spanFrom t 0 ['{']
      simpa using h4
    rw [hscan]
    rcases hs : spanFrom t 1 ['{'] with _ | sp <;> simp [hs]

/-- C3 amended: when the stripped response contains no code-fence marker and
no stray closing brace precedes its first opening brace, the classifier's
candidate is exactly the first syntactically balanced brace span of the
response (the whole stripped response when no such span exists, letting the
JSON parse fail).  When a fence marker is present, the same scan applies
instead to the text between the first and second markers, with every
occurrence of `json` removed. -/
theorem C3_amended_extraction (r : String)
    (h1 : hasFence (strTrim r) = false)
    (h2 : ((strTrim r).data.takeWhile (fun c => c != '{')).all (fun c => c != '}') = true) :
    json_candidate r = (first_balanced_span (strTrim r)).getD (strTrim r) := by
  have hj : json_candidate r = extract_span (strTrim r) := by
    unfold json_candidate
    simp [h1]
  rw [hj]
  exact extract_span_eq_first_balanced _ h2

theorem C3_amended_witness :
    json_candidate " \x7b\x22a\x22: 1\x7d extra"
      = (first_balanced_span (strTrim " \x7b\x22a\x22: 1\x7d extra")).getD
          (strTrim " \x7b\x22a\x22: 1\x7d extra") :=
  C3_amended_extraction " \x7b\x22a\x22: 1\x7d extra" (by decide) (by decide)
